import Mathlib

/-!
# lab2/csrc/interface.cc : the FIFO transport between the CPU model and DRAMSim

A shallow embedding of the five exported functions (Setup, SendRqst, RecvResp,
RecvRespString, Terminate), of the file-scope buffers and descriptors they
share, and of the part of the C library and of the kernel interface they call
(strcat, sprintf, mkfifo, open, write, read, close).

Bytes are natural numbers (character codes).  A char array is a list of bytes
of the declared size.  Every access that would leave its array is reported as
none.  What the kernel decides on its own (whether an open succeeds, how many
bytes a write accepts, what a read finds in the pipe) is an explicit
environment argument of the call.
-/

namespace Interface

/-! ## C strings -/

/-- Character codes of a text. -/
def chars (t : String) : List Nat := t.toList.map Char.toNat

/-- A string literal as stored: its characters and the terminating zero byte. -/
def lit (t : String) : List Nat := chars t ++ [0]

/-- A zero-initialised char array of n bytes. -/
def zeros (n : Nat) : List Nat := List.replicate n 0

/-- A char array of n bytes initialised from a literal: the rest is zero. -/
def arrayInit (n : Nat) (t : String) : List Nat :=
  chars t ++ zeros (n - (chars t).length)

/-- Index of the first zero byte of an array; none when the array holds no
zero byte, so that the scan would run past its end. -/
def strlen : List Nat → Option Nat
  | [] => none
  | c :: cs => if c = 0 then some 0 else (strlen cs).map (· + 1)

/-- The text held by an array: the bytes before the first zero byte. -/
def cstr (p : List Nat) : Option (List Nat) :=
  (strlen p).map fun n => p.take n

/-- strcat(dst, src): the text of src and a terminator are stored from the
terminator of dst on; none when a scan or the store leaves an array. -/
def strcat (dst src : List Nat) : Option (List Nat) :=
  match strlen dst, strlen src with
  | some n, some m =>
    if n + m + 1 ≤ dst.length then
      some (dst.take n ++ (src.take m ++ 0 :: dst.drop (n + m + 1)))
    else none
  | _, _ => none

/-- sprintf(dst, ...) once the format is expanded to out: out and a terminator
are stored at the start of dst; none when they do not fit. -/
def sprintf (dst out : List Nat) : Option (List Nat) :=
  if out.length + 1 ≤ dst.length then
    some (out ++ 0 :: dst.drop (out.length + 1))
  else none

/-- Conversion %016lx of an unsigned long: lower-case hexadecimal, padded with
the digit 0 to a width of at least 16. -/
def fmt_016lx (v : Nat) : List Nat :=
  let ds := (Nat.toDigits 16 (v % 2 ^ 64)).map Char.toNat
  List.replicate (16 - ds.length) 48 ++ ds

/-- Conversion %d of an int. -/
def fmt_d (v : Int) : List Nat :=
  (if v < 0 then [45] else []) ++ (Nat.toDigits 10 v.natAbs).map Char.toNat

/-! ## Kernel interface -/

/-- Access mode of an open descriptor. -/
inductive Access
  | rdonly
  | wronly
  | rdwr
deriving DecidableEq, Repr

/-- Flags of an open call: the access mode and O_NONBLOCK. -/
structure OpenFlags where
  acc : Access
  nonblock : Bool
deriving DecidableEq, Repr

/-- What a descriptor of the process refers to. -/
structure FdEntry where
  path : String
  acc : Access
deriving DecidableEq, Repr

/-- A call that left the process, with its arguments and its result. -/
inductive Event
  | mkfifo (path : String) (mode : Nat) (ret : Int)
  | opened (path : String) (flags : OpenFlags) (ret : Int)
  | wrote (fd : Int) (buf : List Nat) (ret : Int)
  | readIn (fd : Int) (count : Nat) (ret : Int)
  | closed (fd : Int) (ret : Int)
  | printed (text : String)
deriving DecidableEq, Repr

/-- The process environment: the descriptor table, the bytes written into each
named channel and not yet taken out by its reader, and the calls issued so
far (oldest first). -/
structure World where
  fdtab : List (Nat × FdEntry)
  pipes : List (String × List Nat)
  trace : List Event
deriving DecidableEq, Repr

/-- How the kernel answers a write on a writable descriptor: it accepts some
number of bytes (at most the count asked for), or fails. -/
inductive WriteEnv
  | accept (n : Nat)
  | err
deriving DecidableEq, Repr

/-- How the kernel answers a read on a readable descriptor: the bytes the
channel holds at that moment, end of file, or a failure (EAGAIN on an empty
non-blocking channel, EINTR, ...). -/
inductive ReadEnv
  | data (bs : List Nat)
  | eof
  | err
deriving DecidableEq, Repr

/-- Entry of a descriptor; a negative number is no descriptor. -/
def lookupFd (w : World) (fd : Int) : Option FdEntry :=
  if fd < 0 then none else w.fdtab.lookup fd.toNat

/-- The lowest descriptor number not in use. -/
def lowestFree (tab : List (Nat × FdEntry)) : Nat :=
  ((List.range (tab.length + 1)).find? fun n => (tab.lookup n).isNone).getD tab.length

/-- Bytes in flight in a named channel. -/
def pipeGet (pipes : List (String × List Nat)) (p : String) : List Nat :=
  (pipes.lookup p).getD []

/-- Append bytes to a named channel. -/
def pipePut : List (String × List Nat) → String → List Nat → List (String × List Nat)
  | [], p, bs => [(p, bs)]
  | (q, old) :: rest, p, bs =>
    if q = p then (q, old ++ bs) :: rest else (q, old) :: pipePut rest p bs

/-- The reader of a channel takes out up to n bytes: what it gets, and what
stays in the channel. -/
def pipeTake (n : Nat) (q : List Nat) : List Nat × List Nat := (q.take n, q.drop n)

/-- The call mkfifo(path, mode): 0 or -1 as the kernel decides. -/
def sys_mkfifo (w : World) (path : String) (mode : Nat) (ok : Bool) : World × Int :=
  let r : Int := if ok then 0 else -1
  ({ w with trace := w.trace ++ [Event.mkfifo path mode r] }, r)

/-- The call open(path, flags): on success the lowest free descriptor, entered in
the table; on failure -1. -/
def sys_open (w : World) (path : String) (flags : OpenFlags) (ok : Bool) : World × Int :=
  if ok then
    let fd := lowestFree w.fdtab
    ({ w with fdtab := (fd, ⟨path, flags.acc⟩) :: w.fdtab,
              trace := w.trace ++ [Event.opened path flags fd] }, fd)
  else
    ({ w with trace := w.trace ++ [Event.opened path flags (-1)] }, -1)

/-- The call write(fd, buf, count) with buf the count bytes read from the caller:
-1 on a descriptor that is not open for writing or when the kernel fails,
otherwise the number of bytes accepted, which are appended to the channel. -/
def sys_write (w : World) (fd : Int) (buf : List Nat) (env : WriteEnv) : World × Int :=
  match lookupFd w fd, env with
  | some e, WriteEnv.accept n =>
    if e.acc = Access.rdonly then
      ({ w with trace := w.trace ++ [Event.wrote fd buf (-1)] }, -1)
    else
      let m := min n buf.length
      ({ w with pipes := pipePut w.pipes e.path (buf.take m),
                trace := w.trace ++ [Event.wrote fd buf m] }, m)
  | _, _ => ({ w with trace := w.trace ++ [Event.wrote fd buf (-1)] }, -1)

/-- The read call: the new environment, the result, and the bytes stored at
the start of the caller's buffer. -/
def sys_read (w : World) (fd : Int) (count : Nat) (env : ReadEnv) : World × Int × List Nat :=
  match lookupFd w fd, env with
  | some e, ReadEnv.data bs =>
    if e.acc = Access.wronly then
      ({ w with trace := w.trace ++ [Event.readIn fd count (-1)] }, -1, [])
    else
      let got := bs.take count
      ({ w with trace := w.trace ++ [Event.readIn fd count got.length] }, got.length, got)
  | some e, ReadEnv.eof =>
    if e.acc = Access.wronly then
      ({ w with trace := w.trace ++ [Event.readIn fd count (-1)] }, -1, [])
    else
      ({ w with trace := w.trace ++ [Event.readIn fd count 0] }, 0, [])
  | _, _ => ({ w with trace := w.trace ++ [Event.readIn fd count (-1)] }, -1, [])

/-- The call close(fd): the descriptor leaves the table; -1 when it is not open. -/
def sys_close (w : World) (fd : Int) : World × Int :=
  match lookupFd w fd with
  | some _ =>
    ({ w with fdtab := w.fdtab.filter (fun e => e.1 ≠ fd.toNat),
              trace := w.trace ++ [Event.closed fd 0] }, 0)
  | none => ({ w with trace := w.trace ++ [Event.closed fd (-1)] }, -1)

/-! ## The file-scope variables -/

/-- The file-scope variables of interface.cc (lines 14-27). -/
structure State where
  mfd : Int
  cfd : Int
  cmd_r : List Nat
  cmd_w : List Nat
  cycle_send : List Nat
  addr_send : List Nat
  cmd_recv : List Nat
  cycle_recv : List Nat
  addr_recv : List Nat
deriving DecidableEq, Repr

/-- The variables as the loader leaves them. -/
def State.init : State where
  mfd := 0
  cfd := 0
  cmd_r := arrayInit 8 " READ "
  cmd_w := arrayInit 8 " WRITE "
  cycle_send := zeros 18
  addr_send := zeros 44
  cmd_recv := zeros 8
  cycle_recv := zeros 18
  addr_recv := zeros 44

/-- Every array has its declared size. -/
def State.WF (s : State) : Prop :=
  s.cmd_r.length = 8 ∧ s.cmd_w.length = 8 ∧ s.cycle_send.length = 18 ∧
  s.addr_send.length = 44 ∧ s.cmd_recv.length = 8 ∧ s.cycle_recv.length = 18 ∧
  s.addr_recv.length = 44

instance (s : State) : Decidable s.WF := by unfold State.WF; infer_instance

/-! ## The exported functions -/

/-- What the kernel decides during one Setup call: the two mkfifo calls, the
successive attempts to open the request channel, the open of the response
channel. -/
structure SetupEnv where
  mk1 : Bool
  mk2 : Bool
  out : Nat → Bool
  inb : Bool

/-- The flags O_WRONLY | O_NONBLOCK. -/
def O_WRONLY_NONBLOCK : OpenFlags := ⟨Access.wronly, true⟩
/-- The flags O_RDONLY | O_NONBLOCK. -/
def O_RDONLY_NONBLOCK : OpenFlags := ⟨Access.rdonly, true⟩

/-- The loop  while (mfd == -1) mfd = open(rqst_to_memory, O_WRONLY | O_NONBLOCK);
attempt i is the next one to be made.  None when the fuel is used up with mfd
still -1. -/
def openRetry (path : String) (out : Nat → Bool) : Nat → Nat → World → Int → Option (World × Int)
  | 0, _, w, mfd => if mfd = -1 then none else some (w, mfd)
  | fuel + 1, i, w, mfd =>
    if mfd = -1 then
      let r := sys_open w path O_WRONLY_NONBLOCK (out i)
      openRetry path out fuel (i + 1) r.1 r.2
    else some (w, mfd)

/-- Setup(rqst_to_memory, resp_to_cpu), lines 29-77: the new variables, the new
environment and the status; none when the retry loop does not end within the
fuel. -/
def Setup (s : State) (w : World) (rqst_to_memory resp_to_cpu : String) (env : SetupEnv)
    (fuel : Nat) : Option (State × World × Int) :=
  let w1 := (sys_mkfifo w rqst_to_memory 0o666 env.mk1).1
  let w2 := (sys_mkfifo w1 resp_to_cpu 0o666 env.mk2).1
  let r3 := sys_open w2 rqst_to_memory O_WRONLY_NONBLOCK (env.out 0)
  match openRetry rqst_to_memory env.out fuel 1 r3.1 r3.2 with
  | none => none
  | some (w4, mfd) =>
    let r5 := sys_open w4 resp_to_cpu O_RDONLY_NONBLOCK env.inb
    let s5 := { s with mfd := mfd, cfd := r5.2 }
    if r5.2 = -1 then
      let w6 := { r5.1 with trace := r5.1.trace ++
        [Event.printed ("Error opening FIFO for tracing at " ++ resp_to_cpu ++ "\n")] }
      some (s5, w6, 1)
    else
      some (s5, r5.1, 0)

/-- SendRqst(str), lines 79-99: str is the object the caller passes; none when
it is shorter than the 41 bytes the write reads. -/
def SendRqst (s : State) (w : World) (str : List Nat) (env : WriteEnv) :
    Option (State × World × Int) :=
  if str.length < 41 then none
  else
    let r := sys_write w s.mfd (str.take 41) env
    some (s, r.1, r.2)

/-- RecvResp(), lines 101-113: read(cfd, addr_recv, 35); the bytes delivered
replace the first bytes of addr_recv. -/
def RecvResp (s : State) (w : World) (env : ReadEnv) : State × World × Int :=
  let r := sys_read w s.cfd 35 env
  ({ s with addr_recv := r.2.2 ++ s.addr_recv.drop r.2.2.length }, r.1, r.2.1)

/-- RecvRespString(), lines 115-120: the new state and the text at the returned
pointer. -/
def RecvRespString (s : State) : Option (State × List Nat) :=
  match strcat s.addr_recv s.cycle_recv with
  | none => none
  | some a =>
    match cstr a with
    | none => none
    | some t => some ({ s with addr_recv := a }, t)

/-- Terminate(), lines 122-132; none when a store would leave its array. -/
def Terminate (s : State) (w : World) (env : WriteEnv) : Option (State × World) :=
  match sprintf s.addr_send (fmt_016lx 0xffffffffffffffff) with
  | none => none
  | some a1 =>
  match sprintf s.cycle_send (fmt_d 0) with
  | none => none
  | some c1 =>
  match strcat a1 (lit " END ") with
  | none => none
  | some a2 =>
  match strcat a2 c1 with
  | none => none
  | some a3 =>
    let s3 := { s with addr_send := a3, cycle_send := c1 }
    match SendRqst s3 w s3.addr_send env with
    | none => none
    | some (s4, w4, _) =>
      let w5 := (sys_close w4 s4.mfd).1
      let w6 := (sys_close w5 s4.cfd).1
      some (s4, w6)

/-! ## Sequences of calls -/

/-- A call of one of the exported functions, with its arguments and with what
the kernel decides during the call. -/
inductive Call
  | Setup (rqst_to_memory resp_to_cpu : String) (env : SetupEnv) (fuel : Nat)
  | SendRqst (str : List Nat) (env : WriteEnv)
  | RecvResp (env : ReadEnv)
  | RecvRespString
  | Terminate (env : WriteEnv)

/-- What a call returns. -/
inductive Ret
  | int (i : Int)
  | text (t : List Nat)
  | void
deriving DecidableEq, Repr

/-- One call on the state and its environment. -/
def step (s : State) (w : World) : Call → Option (State × World × Ret)
  | Call.Setup p q env fuel => (Setup s w p q env fuel).map fun r => (r.1, r.2.1, Ret.int r.2.2)
  | Call.SendRqst str env => (SendRqst s w str env).map fun r => (r.1, r.2.1, Ret.int r.2.2)
  | Call.RecvResp env =>
    let r := RecvResp s w env
    some (r.1, r.2.1, Ret.int r.2.2)
  | Call.RecvRespString => (RecvRespString s).map fun r => (r.1, w, Ret.text r.2)
  | Call.Terminate env => (Terminate s w env).map fun r => (r.1, r.2, Ret.void)

/-- Run the calls in order; the results are listed in call order. -/
def run : State → World → List Call → Option (State × World × List Ret)
  | s, w, [] => some (s, w, [])
  | s, w, c :: cs =>
    match step s w c with
    | none => none
    | some (s1, w1, r) =>
      match run s1 w1 cs with
      | none => none
      | some (s2, w2, rs) => some (s2, w2, r :: rs)

/-- States the transport can be in: the initial variables in any environment,
and whatever a call that returns leads to. -/
inductive Reachable : State → World → Prop
  | init (w : World) : Reachable State.init w
  | step {s : State} {w : World} (c : Call) {s1 : State} {w1 : World} {r : Ret} :
      Reachable s w → step s w c = some (s1, w1, r) → Reachable s1 w1

/-- A process as it starts: standard input, output and error on the terminal. -/
def World.boot : World where
  fdtab := [(0, ⟨"tty", Access.rdwr⟩), (1, ⟨"tty", Access.rdwr⟩), (2, ⟨"tty", Access.rdwr⟩)]
  pipes := []
  trace := []

/-! ## Vocabulary of the statements -/

/-- The termination record as text. -/
def termText : List Nat := chars "ffffffffffffffff END 0"

/-- What every call preserves: the array sizes, an all-zero cycle_recv, zero
bytes in addr_recv from index 35 on and in addr_send from index 22 on. -/
def Inv (s : State) : Prop :=
  s.WF ∧ s.cycle_recv = zeros 18 ∧ s.addr_recv.drop 35 = zeros 9 ∧
  s.addr_send.drop 22 = zeros 22

/-- The event is an open call made with the given flags. -/
def Event.opensWith (f : OpenFlags) : Event → Bool
  | Event.opened _ g _ => decide (g = f)
  | _ => false

/-- A SendRqst call on a record of at least 41 bytes, or a RecvResp call. -/
def Call.isTransfer : Call → Prop
  | Call.SendRqst str _ => 41 ≤ str.length
  | Call.RecvResp _ => True
  | _ => False

/-- The kernel has no byte to deliver: end of file, a failure such as EAGAIN,
or an empty delivery. -/
def ReadEnv.noData : ReadEnv → Prop
  | ReadEnv.data bs => bs = []
  | ReadEnv.eof => True
  | ReadEnv.err => True

/-! ## Lemmas on C strings -/

theorem strlen_zero_cons (r : List Nat) : strlen (0 :: r) = some 0 := by
  simp [strlen]

theorem strlen_append_zero (t r : List Nat) (ht : ∀ c ∈ t, c ≠ 0) :
    strlen (t ++ 0 :: r) = some t.length := by
  induction t with
  | nil => simp [strlen]
  | cons c cs ih =>
    have hc : c ≠ 0 := ht c (by simp)
    have ih1 := ih (fun x hx => ht x (by simp [hx]))
    simp [strlen, hc, ih1]

theorem strlen_split (p : List Nat) (n : Nat) (h : strlen p = some n) :
    n < p.length ∧ (∀ c ∈ p.take n, c ≠ 0) ∧ p = p.take n ++ 0 :: p.drop (n + 1) := by
  induction p generalizing n with
  | nil => simp [strlen] at h
  | cons c cs ih =>
    by_cases hc : c = 0
    · subst hc
      simp [strlen] at h
      subst h
      simp
    · simp only [strlen, hc, if_false, Option.map_eq_some'] at h
      obtain ⟨m, hm, rfl⟩ := h
      obtain ⟨h1, h2, h3⟩ := ih m hm
      refine ⟨by simpa using h1, ?_, ?_⟩
      · intro x hx
        simp only [List.take_succ_cons, List.mem_cons] at hx
        rcases hx with rfl | hx
        · exact hc
        · exact h2 x hx
      · simp only [List.take_succ_cons, List.drop_succ_cons, List.cons_append]
        exact congrArg (c :: ·) h3

theorem strlen_le_of_drop (p : List Nat) (k : Nat) (r : List Nat) (hk : k < p.length)
    (hd : p.drop k = 0 :: r) : ∃ n, strlen p = some n ∧ n ≤ k := by
  induction p generalizing k with
  | nil => simp at hk
  | cons c cs ih =>
    by_cases hc : c = 0
    · exact ⟨0, by simp [strlen, hc], Nat.zero_le _⟩
    · cases k with
      | zero => simp at hd; exact absurd hd.1 hc
      | succ j =>
        simp only [List.drop_succ_cons] at hd
        obtain ⟨n, hn, hle⟩ := ih j (by simpa using hk) hd
        exact ⟨n + 1, by simp [strlen, hc, hn], by omega⟩

theorem cstr_append_zero (t r : List Nat) (ht : ∀ c ∈ t, c ≠ 0) :
    cstr (t ++ 0 :: r) = some t := by
  simp [cstr, strlen_append_zero t r ht]

theorem sprintf_eq (dst out : List Nat) (h : out.length + 1 ≤ dst.length) :
    sprintf dst out = some (out ++ 0 :: dst.drop (out.length + 1)) := by
  simp [sprintf, h]

theorem strcat_eq (t r u r2 : List Nat) (ht : ∀ c ∈ t, c ≠ 0) (hu : ∀ c ∈ u, c ≠ 0)
    (hfit : u.length ≤ r.length) :
    strcat (t ++ 0 :: r) (u ++ 0 :: r2) = some (t ++ (u ++ 0 :: r.drop u.length)) := by
  have hd : List.drop (t.length + u.length + 1) (t ++ 0 :: r) = r.drop u.length := by
    rw [show t.length + u.length + 1 = t.length + (u.length + 1) by omega, ← List.drop_drop]
    simp
  have hfit2 : t.length + u.length + 1 ≤ t.length + (r.length + 1) := by omega
  simp only [strcat, strlen_append_zero t r ht, strlen_append_zero u r2 hu, List.length_append,
    List.length_cons, hfit2, if_true, hd]
  simp

/-- With an empty source text strcat stores a zero byte over the terminator
it found: the array is unchanged. -/
theorem strcat_empty (dst r : List Nat) (n : Nat) (h : strlen dst = some n) :
    strcat dst (0 :: r) = some dst := by
  obtain ⟨h1, _, h3⟩ := strlen_split dst n h
  have h4 : n + 0 + 1 ≤ dst.length := by omega
  simp only [strcat, h, strlen_zero_cons, h4, if_true, List.take_zero, List.nil_append,
    Nat.add_zero]
  exact congrArg some h3.symm

/-! ## What Terminate stores and sends -/

theorem termText_ne_zero : ∀ c ∈ termText, c ≠ 0 := by decide

theorem Terminate_buffers (s : State) (ha : s.addr_send.length = 44)
    (hc : s.cycle_send.length = 18) :
    ∃ a1 c1 a2,
      sprintf s.addr_send (fmt_016lx 0xffffffffffffffff) = some a1 ∧
      sprintf s.cycle_send (fmt_d 0) = some c1 ∧
      strcat a1 (lit " END ") = some a2 ∧
      strcat a2 c1 = some (termText ++ 0 :: s.addr_send.drop 23) ∧
      c1 = chars "0" ++ 0 :: s.cycle_send.drop 2 := by
  have hF : fmt_016lx 0xffffffffffffffff = chars "ffffffffffffffff" := by decide
  have hD : fmt_d 0 = chars "0" := by decide
  have hFl : (chars "ffffffffffffffff").length = 16 := by decide
  have hDl : (chars "0").length = 1 := by decide
  have hEl : (chars " END ").length = 5 := by decide
  have hF0 : ∀ c ∈ chars "ffffffffffffffff", c ≠ 0 := by decide
  have hE0 : ∀ c ∈ chars " END ", c ≠ 0 := by decide
  have hFE0 : ∀ c ∈ chars "ffffffffffffffff" ++ chars " END ", c ≠ 0 := by decide
  have hD0 : ∀ c ∈ chars "0", c ≠ 0 := by decide
  have hcat : (chars "ffffffffffffffff" ++ chars " END ") ++ chars "0" = termText := by decide
  refine ⟨chars "ffffffffffffffff" ++ 0 :: s.addr_send.drop 17,
    chars "0" ++ 0 :: s.cycle_send.drop 2,
    (chars "ffffffffffffffff" ++ chars " END ") ++ 0 :: s.addr_send.drop 22, ?_, ?_, ?_, ?_, rfl⟩
  · rw [hF, sprintf_eq _ _ (by rw [hFl, ha]; omega), hFl]
  · rw [hD, sprintf_eq _ _ (by rw [hDl, hc]; omega), hDl]
  · have h := strcat_eq (chars "ffffffffffffffff") (s.addr_send.drop 17) (chars " END ") []
      hF0 hE0 (by rw [hEl, List.length_drop, ha]; omega)
    rw [hEl, List.drop_drop] at h
    rw [lit, List.append_assoc]
    exact h
  · have h := strcat_eq (chars "ffffffffffffffff" ++ chars " END ") (s.addr_send.drop 22)
      (chars "0") (s.cycle_send.drop 2) hFE0 hD0 (by rw [hDl, List.length_drop, ha]; omega)
    rw [hDl, List.drop_drop, ← List.append_assoc, hcat] at h
    exact h

/-- The result of Terminate, spelled out, for arrays of the declared size. -/
theorem Terminate_eq (s : State) (w : World) (env : WriteEnv) (ha : s.addr_send.length = 44)
    (hc : s.cycle_send.length = 18) :
    Terminate s w env =
      some ({ s with addr_send := termText ++ 0 :: s.addr_send.drop 23,
                     cycle_send := chars "0" ++ 0 :: s.cycle_send.drop 2 },
        (sys_close (sys_close (sys_write w s.mfd
          ((termText ++ 0 :: s.addr_send.drop 23).take 41) env).1 s.mfd).1 s.cfd).1) := by
  obtain ⟨a1, c1, a2, h1, h2, h3, h4, h5⟩ := Terminate_buffers s ha hc
  have hl : ¬ (termText ++ 0 :: s.addr_send.drop 23).length < 41 := by
    have : termText.length = 22 := by decide
    simp [this, ha]
  simp only [Terminate, h1, h2, h3, h4, SendRqst, hl, if_false]
  rw [h5]

/-! ## Invariant of the reachable states -/

theorem Inv_init : Inv State.init := by
  refine ⟨?_, ?_, ?_, ?_⟩ <;> decide

theorem sys_read_length (w : World) (fd : Int) (count : Nat) (env : ReadEnv) :
    (sys_read w fd count env).2.2.length ≤ count := by
  unfold sys_read
  split
  · split <;> simp [List.length_take]
  · split <;> simp
  · simp

theorem blit_length (got a : List Nat) (h : got.length ≤ a.length) :
    (got ++ a.drop got.length).length = a.length := by
  simp only [List.length_append, List.length_drop]
  omega

theorem blit_drop (got a : List Nat) (k : Nat) (h : got.length ≤ k) :
    (got ++ a.drop got.length).drop k = a.drop k := by
  rw [List.drop_append_eq_append_drop, List.drop_eq_nil_of_le h, List.nil_append,
    List.drop_drop]
  congr 1
  omega

theorem Setup_state (s : State) (w : World) (p q : String) (env : SetupEnv) (fuel : Nat)
    (s1 : State) (w1 : World) (r : Int) (h : Setup s w p q env fuel = some (s1, w1, r)) :
    ∃ m c, s1 = { s with mfd := m, cfd := c } := by
  unfold Setup at h
  simp only at h
  split at h
  · exact absurd h (by simp)
  · split at h
    · simp only [Option.some.injEq, Prod.mk.injEq] at h
      exact ⟨_, _, h.1.symm⟩
    · simp only [Option.some.injEq, Prod.mk.injEq] at h
      exact ⟨_, _, h.1.symm⟩

/-- In a state of the invariant RecvRespString changes nothing and returns the
text of addr_recv, of at most 35 bytes. -/
theorem RecvRespString_of_Inv (s : State) (h : Inv s) :
    ∃ t, RecvRespString s = some (s, t) ∧ cstr s.addr_recv = some t ∧ t.length ≤ 35 := by
  obtain ⟨hwf, hcy, har, _⟩ := h
  have hlen : s.addr_recv.length = 44 := hwf.2.2.2.2.2.2
  obtain ⟨n, hn, hle⟩ := strlen_le_of_drop s.addr_recv 35 (zeros 8) (by omega) (by rw [har]; rfl)
  have hcat : strcat s.addr_recv s.cycle_recv = some s.addr_recv := by
    rw [hcy]
    exact strcat_empty s.addr_recv (zeros 17) n hn
  have hlt := (strlen_split s.addr_recv n hn).1
  refine ⟨s.addr_recv.take n, ?_, ?_, ?_⟩
  · simp only [RecvRespString, hcat, cstr, hn, Option.map_some']
  · simp only [cstr, hn, Option.map_some']
  · rw [List.length_take]
    omega

theorem Inv_step (s : State) (w : World) (c : Call) (s1 : State) (w1 : World) (r : Ret)
    (h : Inv s) (hs : step s w c = some (s1, w1, r)) : Inv s1 := by
  cases c with
  | Setup p q env fuel =>
    simp only [step, Option.map_eq_some', Prod.mk.injEq] at hs
    obtain ⟨⟨a, b, c⟩, hS, rfl, _, _⟩ := hs
    obtain ⟨m, k, rfl⟩ := Setup_state s w p q env fuel _ _ _ hS
    exact h
  | SendRqst str env =>
    simp only [step, SendRqst, Option.map_eq_some', Prod.mk.injEq] at hs
    obtain ⟨⟨a, b, c⟩, hS, rfl, _, _⟩ := hs
    split at hS
    · exact absurd hS (by simp)
    · simp only [Option.some.injEq, Prod.mk.injEq] at hS
      rw [← hS.1]
      exact h
  | RecvResp env =>
    simp only [step, RecvResp, Option.some.injEq, Prod.mk.injEq] at hs
    obtain ⟨rfl, _, _⟩ := hs
    obtain ⟨hwf, hcy, har, hse⟩ := h
    obtain ⟨h1, h2, h3, h4, h5, h6, h7⟩ := hwf
    have hg := sys_read_length w s.cfd 35 env
    refine ⟨⟨h1, h2, h3, h4, h5, h6, ?_⟩, hcy, ?_, hse⟩
    · exact (blit_length _ _ (by omega)).trans h7
    · exact (blit_drop _ _ 35 hg).trans har
  | RecvRespString =>
    obtain ⟨t, ht, _, _⟩ := RecvRespString_of_Inv s h
    simp only [step, ht, Option.map_some', Option.some.injEq, Prod.mk.injEq] at hs
    rw [← hs.1]
    exact h
  | Terminate env =>
    obtain ⟨hwf, hcy, har, hse⟩ := h
    obtain ⟨h1, h2, h3, h4, h5, h6, h7⟩ := hwf
    simp only [step, Terminate_eq s w env h4 h3, Option.map_some', Option.some.injEq,
      Prod.mk.injEq] at hs
    obtain ⟨rfl, _, _⟩ := hs
    have htl : termText.length = 22 := by decide
    have hcl : (chars "0").length = 1 := by decide
    have hd23 : s.addr_send.drop 23 = zeros 21 := by
      have : s.addr_send.drop 23 = (s.addr_send.drop 22).drop 1 := by
        rw [List.drop_drop]
      rw [this, hse]
      rfl
    refine ⟨⟨h1, h2, ?_, ?_, h5, h6, h7⟩, hcy, har, ?_⟩
    · simp only [List.length_append, List.length_cons, List.length_drop, hcl, h3]
    · simp only [List.length_append, List.length_cons, List.length_drop, htl, h4]
    · show (termText ++ 0 :: s.addr_send.drop 23).drop 22 = zeros 22
      rw [hd23]
      decide

theorem Inv_of_Reachable (s : State) (w : World) (h : Reachable s w) : Inv s := by
  induction h with
  | init w => exact Inv_init
  | step c _ hs ih => exact Inv_step _ _ c _ _ _ ih hs

/-! ## Lemmas on the kernel interface -/

theorem sys_write_trace (w : World) (fd : Int) (buf : List Nat) (env : WriteEnv) :
    (sys_write w fd buf env).1.trace = w.trace ++ [Event.wrote fd buf (sys_write w fd buf env).2] := by
  unfold sys_write
  split
  · split <;> rfl
  · rfl

theorem sys_write_fdtab (w : World) (fd : Int) (buf : List Nat) (env : WriteEnv) :
    (sys_write w fd buf env).1.fdtab = w.fdtab := by
  unfold sys_write
  split
  · split <;> rfl
  · rfl

theorem sys_write_range (w : World) (fd : Int) (buf : List Nat) (env : WriteEnv) :
    (sys_write w fd buf env).2 = -1 ∨
      (0 ≤ (sys_write w fd buf env).2 ∧ (sys_write w fd buf env).2 ≤ buf.length) := by
  unfold sys_write
  split
  · split
    · exact Or.inl rfl
    · refine Or.inr ⟨Int.ofNat_nonneg _, ?_⟩
      exact Int.ofNat_le.mpr (Nat.min_le_right _ _)
  · exact Or.inl rfl

theorem sys_close_trace (w : World) (fd : Int) :
    (sys_close w fd).1.trace = w.trace ++ [Event.closed fd (sys_close w fd).2] := by
  unfold sys_close
  split <;> rfl

theorem sys_close_pipes (w : World) (fd : Int) : (sys_close w fd).1.pipes = w.pipes := by
  unfold sys_close
  split <;> rfl

theorem sys_read_trace (w : World) (fd : Int) (count : Nat) (env : ReadEnv) :
    (sys_read w fd count env).1.trace =
      w.trace ++ [Event.readIn fd count (sys_read w fd count env).2.1] := by
  unfold sys_read
  split
  · split <;> rfl
  · split <;> rfl
  · rfl

theorem sys_read_frame (w : World) (fd : Int) (count : Nat) (env : ReadEnv) :
    (sys_read w fd count env).1.fdtab = w.fdtab ∧ (sys_read w fd count env).1.pipes = w.pipes := by
  unfold sys_read
  split
  · split <;> exact ⟨rfl, rfl⟩
  · split <;> exact ⟨rfl, rfl⟩
  · exact ⟨rfl, rfl⟩

/-! ## RecvRespString -/

theorem RecvRespString_text (s0 s1 : State) (t : List Nat)
    (h : RecvRespString s0 = some (s1, t)) :
    ∃ a c, cstr s0.addr_recv = some a ∧ cstr s0.cycle_recv = some c ∧ t = a ++ c := by
  unfold RecvRespString strcat at h
  cases hn : strlen s0.addr_recv with
  | none => simp [hn] at h
  | some n =>
    cases hm : strlen s0.cycle_recv with
    | none => simp [hn, hm] at h
    | some m =>
      obtain ⟨_, ha0, _⟩ := strlen_split _ n hn
      obtain ⟨_, hc0, _⟩ := strlen_split _ m hm
      simp only [hn, hm] at h
      by_cases hfit : n + m + 1 ≤ s0.addr_recv.length
      · have h0 : ∀ c ∈ s0.addr_recv.take n ++ s0.cycle_recv.take m, c ≠ 0 := by
          intro c hc
          rcases List.mem_append.mp hc with hc | hc
          · exact ha0 c hc
          · exact hc0 c hc
        have hcs := cstr_append_zero _ (s0.addr_recv.drop (n + m + 1)) h0
        rw [List.append_assoc] at hcs
        simp only [hfit, if_true, hcs, Option.some.injEq, Prod.mk.injEq] at h
        exact ⟨_, _, by simp [cstr, hn], by simp [cstr, hm], h.2.symm⟩
      · simp [hfit] at h

/-! ## The descriptor table -/

theorem lookup_filter_self (tab : List (Nat × FdEntry)) (k : Nat) :
    (tab.filter (fun e => e.1 ≠ k)).lookup k = none := by
  induction tab with
  | nil => rfl
  | cons e es ih =>
    by_cases h : e.1 = k
    · rw [List.filter_cons_of_neg (by simp [h])]
      exact ih
    · have hk : (k == e.1) = false := by simpa using fun h2 => h h2.symm
      simp only [List.filter, h, ne_eq, not_false_eq_true, decide_True]
      rw [show e = (e.1, e.2) from rfl, List.lookup_cons, hk]
      exact ih

theorem lookup_filter_none (tab : List (Nat × FdEntry)) (k : Nat) (f : Nat × FdEntry → Bool)
    (h : tab.lookup k = none) : (tab.filter f).lookup k = none := by
  induction tab with
  | nil => rfl
  | cons e es ih =>
    rw [show e = (e.1, e.2) from rfl, List.lookup_cons] at h
    cases hk : (k == e.1) with
    | true => simp [hk] at h
    | false =>
      simp only [hk] at h
      cases hf : f e with
      | true =>
        rw [List.filter_cons_of_pos hf, show e = (e.1, e.2) from rfl, List.lookup_cons, hk]
        exact ih h
      | false =>
        rw [List.filter_cons_of_neg (by simp [hf])]
        exact ih h

theorem lookupFd_close_self (w : World) (fd : Int) : lookupFd (sys_close w fd).1 fd = none := by
  unfold sys_close
  split
  · simp only [lookupFd]
    split
    · rfl
    · exact lookup_filter_self _ _
  · assumption

theorem lookupFd_close_none (w : World) (fd fd2 : Int) (h : lookupFd w fd = none) :
    lookupFd (sys_close w fd2).1 fd = none := by
  unfold sys_close
  split
  · simp only [lookupFd] at h ⊢
    split
    · rfl
    · rename_i hneg
      simp only [hneg, if_false] at h
      exact lookup_filter_none _ _ _ h
  · exact h

theorem sys_write_closed (w : World) (fd : Int) (buf : List Nat) (env : WriteEnv)
    (h : lookupFd w fd = none) :
    sys_write w fd buf env = ({ w with trace := w.trace ++ [Event.wrote fd buf (-1)] }, -1) := by
  simp [sys_write, h]

theorem sys_read_closed (w : World) (fd : Int) (count : Nat) (env : ReadEnv)
    (h : lookupFd w fd = none) :
    sys_read w fd count env =
      ({ w with trace := w.trace ++ [Event.readIn fd count (-1)] }, -1, []) := by
  simp [sys_read, h]

theorem lowestFree_free (tab : List (Nat × FdEntry)) : tab.lookup (lowestFree tab) = none := by
  unfold lowestFree
  cases hf : (List.range (tab.length + 1)).find? fun n => (tab.lookup n).isNone with
  | some n =>
    have := List.find?_some hf
    simpa using this
  | none =>
    exfalso
    rw [List.find?_eq_none] at hf
    have hsub : List.range (tab.length + 1) ⊆ tab.map Prod.fst := by
      intro n hn
      have h1 := hf n hn
      cases hl : tab.lookup n with
      | none => simp [hl] at h1
      | some e =>
        have hmem : (n, e) ∈ tab := by
          clear hf h1 hn
          induction tab with
          | nil => simp at hl
          | cons x xs ih =>
            rw [show x = (x.1, x.2) from rfl, List.lookup_cons] at hl
            cases hk : (n == x.1) with
            | true =>
              simp only [hk, Option.some.injEq] at hl
              have : n = x.1 := by simpa using hk
              simp [this, ← hl]
            | false =>
              simp only [hk] at hl
              exact List.mem_cons_of_mem _ (ih hl)
        exact List.mem_map.mpr ⟨(n, e), hmem, rfl⟩
    have hle := ((List.nodup_range _).subperm hsub).length_le
    simp at hle

theorem pipeGet_pipePut (ps : List (String × List Nat)) (p : String) (bs : List Nat) :
    pipeGet (pipePut ps p bs) p = pipeGet ps p ++ bs := by
  induction ps with
  | nil => simp [pipePut, pipeGet]
  | cons e es ih =>
    obtain ⟨q, old⟩ := e
    by_cases h : q = p
    · subst h
      simp [pipePut, pipeGet]
    · have hk : (p == q) = false := by simpa using fun h2 => h h2.symm
      simp only [pipeGet] at ih
      simp only [pipePut, h, if_false, pipeGet, List.lookup_cons, hk]
      exact ih

/-! ## Setup -/

theorem openRetry_done (p : String) (out : Nat → Bool) (fuel i : Nat) (w : World) (n : Nat) :
    openRetry p out fuel i w (n : Int) = some (w, (n : Int)) := by
  have h : ¬ ((n : Int) = -1) := by omega
  cases fuel <;> simp [openRetry, h]

/-- The retry loop entered with mfd = -1, when the attempts i, ..., i+k-1 fail
and attempt i+k succeeds: k failed opens, then the successful one. -/
theorem openRetry_spin (p : String) (out : Nat → Bool) (k : Nat) :
    ∀ (fuel i : Nat) (w : World), (∀ j < k, out (i + j) = false) → out (i + k) = true →
      k + 1 ≤ fuel →
      openRetry p out fuel i w (-1) =
        some ({ w with
          fdtab := (lowestFree w.fdtab, ⟨p, Access.wronly⟩) :: w.fdtab,
          trace := w.trace ++ (List.replicate k (Event.opened p O_WRONLY_NONBLOCK (-1)) ++
            [Event.opened p O_WRONLY_NONBLOCK (lowestFree w.fdtab)]) },
          (lowestFree w.fdtab : Int)) := by
  induction k with
  | zero =>
    intro fuel i w _ hok hfuel
    obtain ⟨f, rfl⟩ : ∃ f, fuel = f + 1 := ⟨fuel - 1, by omega⟩
    have hok1 : out i = true := by simpa using hok
    simp only [openRetry, if_true, sys_open, hok1]
    rw [openRetry_done]
    rfl
  | succ k ih =>
    intro fuel i w hfail hok hfuel
    obtain ⟨f, rfl⟩ : ∃ f, fuel = f + 1 := ⟨fuel - 1, by omega⟩
    have h0 : out i = false := by simpa using hfail 0 (by omega)
    simp only [openRetry, if_true, sys_open, h0, Bool.false_eq_true, if_false]
    rw [ih f (i + 1) _ (fun j hj => by
      have := hfail (j + 1) (by omega)
      rwa [show i + 1 + j = i + (j + 1) by omega]) (by
      rwa [show i + 1 + k = i + (k + 1) by omega]) (by omega)]
    simp [List.replicate_succ]

/-- The result of Setup, spelled out, when the outbound open fails k times and
then succeeds, with fuel for the k turns of the loop. -/
theorem Setup_eq (s : State) (w : World) (p q : String) (env : SetupEnv) (fuel k : Nat)
    (hfail : ∀ i < k, env.out i = false) (hok : env.out k = true) (hfuel : k ≤ fuel) :
    Setup s w p q env fuel =
      (let fd := lowestFree w.fdtab
       let tab1 := (fd, (⟨p, Access.wronly⟩ : FdEntry)) :: w.fdtab
       let tr1 := w.trace ++ ([Event.mkfifo p 0o666 (if env.mk1 then 0 else -1),
          Event.mkfifo q 0o666 (if env.mk2 then 0 else -1)] ++
          (List.replicate k (Event.opened p O_WRONLY_NONBLOCK (-1)) ++
            [Event.opened p O_WRONLY_NONBLOCK fd]))
       if env.inb then
         some ({ s with mfd := fd, cfd := lowestFree tab1 },
           { fdtab := (lowestFree tab1, ⟨q, Access.rdonly⟩) :: tab1, pipes := w.pipes,
             trace := tr1 ++ [Event.opened q O_RDONLY_NONBLOCK (lowestFree tab1)] }, 0)
       else
         some ({ s with mfd := fd, cfd := -1 },
           { fdtab := tab1, pipes := w.pipes,
             trace := tr1 ++ [Event.opened q O_RDONLY_NONBLOCK (-1),
               Event.printed ("Error opening FIFO for tracing at " ++ q ++ "\n")] }, 1)) := by
  have hloop : ∀ w2 : World,
      openRetry p env.out fuel 1 (sys_open w2 p O_WRONLY_NONBLOCK (env.out 0)).1
        (sys_open w2 p O_WRONLY_NONBLOCK (env.out 0)).2 =
      openRetry p env.out (fuel + 1) 0 w2 (-1) := by
    intro w2
    simp [openRetry]
  unfold Setup
  simp only [hloop]
  rw [openRetry_spin p env.out k (fuel + 1) 0 _ (by simpa using hfail) (by simpa using hok)
    (by omega)]
  cases hin : env.inb with
  | true =>
    have hne : ¬ ((lowestFree ((lowestFree w.fdtab, (⟨p, Access.wronly⟩ : FdEntry)) :: w.fdtab) : Nat) : Int) = -1 := by
      omega
    simp [sys_open, sys_mkfifo, O_RDONLY_NONBLOCK, hne]
  | false =>
    simp [sys_open, sys_mkfifo, O_RDONLY_NONBLOCK]

/-! ## The claims -/

/-- C1: in every reachable state Terminate returns, leaves in addr_send the
text "ffffffffffffffff END 0" (the %016lx rendering of the all-ones 64-bit
value, the token " END ", the %d rendering of 0) and passes addr_send to
SendRqst; the calls it issues are exactly one write on mfd, of 41 bytes that
are these 22 characters followed by 19 zero bytes and are the first 41 bytes
of the 44-byte addr_send, and then the two closes. -/
theorem C1_Terminate_record (s : State) (w : World) (env : WriteEnv) (h : Reachable s w) :
    ∃ s1 w1 wm r c1 c2,
      Terminate s w env = some (s1, w1) ∧
      cstr s1.addr_send = some (chars "ffffffffffffffff END 0") ∧
      chars "ffffffffffffffff END 0" = fmt_016lx (2 ^ 64 - 1) ++ chars " END " ++ fmt_d 0 ∧
      SendRqst s1 w s1.addr_send env = some (s1, wm, r) ∧
      w1.trace = w.trace ++ [Event.wrote s.mfd (chars "ffffffffffffffff END 0" ++ zeros 19) r,
        Event.closed s.mfd c1, Event.closed s.cfd c2] ∧
      (chars "ffffffffffffffff END 0").length = 22 ∧
      (chars "ffffffffffffffff END 0" ++ zeros 19).length = 41 ∧
      s1.addr_send.length = 44 ∧
      s1.addr_send.take 41 = chars "ffffffffffffffff END 0" ++ zeros 19 := by
  obtain ⟨hwf, _, _, hse⟩ := Inv_of_Reachable s w h
  have ha : s.addr_send.length = 44 := hwf.2.2.2.1
  have hc : s.cycle_send.length = 18 := hwf.2.2.1
  have hd23 : s.addr_send.drop 23 = zeros 21 := by
    have : s.addr_send.drop 23 = (s.addr_send.drop 22).drop 1 := by rw [List.drop_drop]
    rw [this, hse]
    rfl
  have hbuf : termText ++ 0 :: s.addr_send.drop 23 = termText ++ zeros 22 := by
    rw [hd23]
    rfl
  have htake : (termText ++ zeros 22).take 41 = chars "ffffffffffffffff END 0" ++ zeros 19 := by
    decide
  have hlen : ¬ (termText ++ zeros 22).length < 41 := by decide
  have hT := Terminate_eq s w env ha hc
  rw [hbuf, htake] at hT
  refine ⟨_, _, (sys_write w s.mfd (chars "ffffffffffffffff END 0" ++ zeros 19) env).1,
    (sys_write w s.mfd (chars "ffffffffffffffff END 0" ++ zeros 19) env).2,
    (sys_close (sys_write w s.mfd (chars "ffffffffffffffff END 0" ++ zeros 19) env).1 s.mfd).2,
    (sys_close (sys_close (sys_write w s.mfd
      (chars "ffffffffffffffff END 0" ++ zeros 19) env).1 s.mfd).1 s.cfd).2,
    hT, ?_, by decide, ?_, ?_, by decide, by decide, ?_, htake⟩
  · exact cstr_append_zero termText _ termText_ne_zero
  · simp only [SendRqst, hlen, if_false, htake]
  · simp only [sys_close_trace, sys_write_trace, List.append_assoc, List.singleton_append]
    rfl
  · show (termText ++ zeros 22).length = 44
    decide

theorem C1_Terminate_record_witness :
    Reachable State.init World.boot ∧
    ∃ s1 w1 wm r c1 c2,
      Terminate State.init World.boot (WriteEnv.accept 41) = some (s1, w1) ∧
      cstr s1.addr_send = some (chars "ffffffffffffffff END 0") ∧
      chars "ffffffffffffffff END 0" = fmt_016lx (2 ^ 64 - 1) ++ chars " END " ++ fmt_d 0 ∧
      SendRqst s1 World.boot s1.addr_send (WriteEnv.accept 41) = some (s1, wm, r) ∧
      w1.trace = World.boot.trace ++
        [Event.wrote State.init.mfd (chars "ffffffffffffffff END 0" ++ zeros 19) r,
         Event.closed State.init.mfd c1, Event.closed State.init.cfd c2] ∧
      (chars "ffffffffffffffff END 0").length = 22 ∧
      (chars "ffffffffffffffff END 0" ++ zeros 19).length = 41 ∧
      s1.addr_send.length = 44 ∧
      s1.addr_send.take 41 = chars "ffffffffffffffff END 0" ++ zeros 19 :=
  ⟨Reachable.init _,
    C1_Terminate_record State.init World.boot (WriteEnv.accept 41) (Reachable.init _)⟩

/-- RecvRespString on any state whose two arrays hold a text and whose
addr_recv has room for both and the terminator: it returns the text of
addr_recv followed by the text of cycle_recv, stored so in addr_recv. -/
theorem RecvRespString_append (s0 : State) (a c : List Nat)
    (ha : cstr s0.addr_recv = some a) (hc : cstr s0.cycle_recv = some c)
    (hfit : a.length + c.length + 1 ≤ s0.addr_recv.length) :
    RecvRespString s0 =
      some ({ s0 with addr_recv :=
        a ++ (c ++ 0 :: s0.addr_recv.drop (a.length + c.length + 1)) }, a ++ c) := by
  cases hn : strlen s0.addr_recv with
  | none => simp [cstr, hn] at ha
  | some n =>
    cases hm : strlen s0.cycle_recv with
    | none => simp [cstr, hm] at hc
    | some m =>
      obtain ⟨hnl, ha0, _⟩ := strlen_split _ n hn
      obtain ⟨hml, hc0, _⟩ := strlen_split _ m hm
      simp only [cstr, hn, hm, Option.map_some', Option.some.injEq] at ha hc
      have hal : a.length = n := by
        rw [← ha, List.length_take]
        omega
      have hcl : c.length = m := by
        rw [← hc, List.length_take]
        omega
      have h0 : ∀ x ∈ a ++ c, x ≠ 0 := by
        intro x hx
        rcases List.mem_append.mp hx with hx | hx
        · exact ha0 x (ha ▸ hx)
        · exact hc0 x (hc ▸ hx)
      have hcs := cstr_append_zero (a ++ c) (s0.addr_recv.drop (a.length + c.length + 1)) h0
      rw [List.append_assoc] at hcs
      have hfit2 : n + m + 1 ≤ s0.addr_recv.length := by omega
      simp only [RecvRespString, strcat, hn, hm, hfit2, if_true, ha, hc]
      rw [← hal, ← hcl, hcs]

/-- C9: RecvRespString returns the text of addr_recv with the text of
cycle_recv appended: on every state whose two arrays hold a text that fits
with its terminator in addr_recv it returns exactly that concatenation and
stores it in addr_recv, and whenever it returns its text is such a
concatenation.  In every state reachable from the initial one cycle_recv is
all zero, so its text is empty, RecvRespString returns the text of addr_recv
up to its first zero byte and leaves every variable as it was, and two
consecutive calls return that same text. -/
theorem C9_RecvRespString_idempotent (s : State) (w : World) (h : Reachable s w) :
    (∀ (s0 : State) (a c : List Nat), cstr s0.addr_recv = some a →
      cstr s0.cycle_recv = some c → a.length + c.length + 1 ≤ s0.addr_recv.length →
      RecvRespString s0 =
        some ({ s0 with addr_recv :=
          a ++ (c ++ 0 :: s0.addr_recv.drop (a.length + c.length + 1)) }, a ++ c)) ∧
    (∀ (s0 s1 : State) (t0 : List Nat), RecvRespString s0 = some (s1, t0) →
      ∃ a c, cstr s0.addr_recv = some a ∧ cstr s0.cycle_recv = some c ∧ t0 = a ++ c) ∧
    s.cycle_recv = zeros 18 ∧ cstr s.cycle_recv = some [] ∧
    ∃ t, cstr s.addr_recv = some t ∧ RecvRespString s = some (s, t) ∧
      run s w [Call.RecvRespString, Call.RecvRespString] = some (s, w, [Ret.text t, Ret.text t]) := by
  have hinv := Inv_of_Reachable s w h
  obtain ⟨t, ht, hc, _⟩ := RecvRespString_of_Inv s hinv
  refine ⟨RecvRespString_append, RecvRespString_text, hinv.2.1, ?_, t, hc, ht, ?_⟩
  · rw [hinv.2.1]
    rfl
  · simp [run, step, ht]

theorem C9_RecvRespString_idempotent_witness :
    Reachable (RecvResp State.init World.boot (ReadEnv.data (chars "0000000083000000 100"))).1
      (RecvResp State.init World.boot (ReadEnv.data (chars "0000000083000000 100"))).2.1 ∧
    RecvRespString { State.init with
        addr_recv := chars "0000000083000000 " ++ zeros 27,
        cycle_recv := chars "100" ++ zeros 15 } =
      some ({ State.init with
        addr_recv := chars "0000000083000000 " ++ (chars "100" ++ 0 :: zeros 23),
        cycle_recv := chars "100" ++ zeros 15 }, chars "0000000083000000 " ++ chars "100") ∧
    (∃ t, cstr (RecvResp State.init World.boot
          (ReadEnv.data (chars "0000000083000000 100"))).1.addr_recv = some t ∧
      RecvRespString (RecvResp State.init World.boot
          (ReadEnv.data (chars "0000000083000000 100"))).1 =
        some ((RecvResp State.init World.boot
          (ReadEnv.data (chars "0000000083000000 100"))).1, t) ∧
      run (RecvResp State.init World.boot (ReadEnv.data (chars "0000000083000000 100"))).1
          (RecvResp State.init World.boot (ReadEnv.data (chars "0000000083000000 100"))).2.1
          [Call.RecvRespString, Call.RecvRespString] =
        some ((RecvResp State.init World.boot (ReadEnv.data (chars "0000000083000000 100"))).1,
          (RecvResp State.init World.boot (ReadEnv.data (chars "0000000083000000 100"))).2.1,
          [Ret.text t, Ret.text t])) ∧
    (run (RecvResp State.init World.boot (ReadEnv.data (chars "0000000083000000 100"))).1
        (RecvResp State.init World.boot (ReadEnv.data (chars "0000000083000000 100"))).2.1
        [Call.RecvRespString, Call.RecvRespString]).map (fun x => x.2.2) =
      some [Ret.text (chars "0000000083000000 100"), Ret.text (chars "0000000083000000 100")] :=
  ⟨Reachable.step (Call.RecvResp (ReadEnv.data (chars "0000000083000000 100")))
      (Reachable.init World.boot) rfl,
    (C9_RecvRespString_idempotent _ _
      (Reachable.step (Call.RecvResp (ReadEnv.data (chars "0000000083000000 100")))
        (Reachable.init World.boot) rfl)).1
      { State.init with
        addr_recv := chars "0000000083000000 " ++ zeros 27,
        cycle_recv := chars "100" ++ zeros 15 }
      (chars "0000000083000000 ") (chars "100") (by decide) (by decide) (by decide),
    (C9_RecvRespString_idempotent _ _
      (Reachable.step (Call.RecvResp (ReadEnv.data (chars "0000000083000000 100")))
        (Reachable.init World.boot) rfl)).2.2.2.2,
    by decide⟩

/-- C10: in every state reachable from the initial one addr_recv has its 44
bytes and the bytes 35..43 are zero; so addr_recv holds a zero-terminated text
of at most 35 bytes, the strcat of RecvRespString stays inside addr_recv (it
succeeds and leaves the array as it was), and the text RecvRespString returns
has at most 35 bytes. -/
theorem C10_addr_recv_tail_zero (s : State) (w : World) (h : Reachable s w) :
    s.addr_recv.length = 44 ∧ s.addr_recv.drop 35 = zeros 9 ∧
    ∃ t, cstr s.addr_recv = some t ∧ t.length ≤ 35 ∧
      strcat s.addr_recv s.cycle_recv = some s.addr_recv ∧
      RecvRespString s = some (s, t) := by
  have hinv := Inv_of_Reachable s w h
  obtain ⟨t, ht, hc, hl⟩ := RecvRespString_of_Inv s hinv
  refine ⟨hinv.1.2.2.2.2.2.2, hinv.2.2.1, t, hc, hl, ?_, ht⟩
  unfold RecvRespString at ht
  cases hs : strcat s.addr_recv s.cycle_recv with
  | none => simp [hs] at ht
  | some a =>
    simp only [hs] at ht
    cases hcs : cstr a with
    | none => simp [hcs] at ht
    | some u =>
      simp only [hcs, Option.some.injEq, Prod.mk.injEq] at ht
      have := congrArg State.addr_recv ht.1
      simpa using this

theorem C10_addr_recv_tail_zero_witness :
    Reachable (RecvResp State.init World.boot (ReadEnv.data (List.replicate 40 65))).1
      (RecvResp State.init World.boot (ReadEnv.data (List.replicate 40 65))).2.1 ∧
    ((RecvResp State.init World.boot (ReadEnv.data (List.replicate 40 65))).1.addr_recv.length
        = 44 ∧
    (RecvResp State.init World.boot (ReadEnv.data (List.replicate 40 65))).1.addr_recv.drop 35
        = zeros 9 ∧
    ∃ t, cstr (RecvResp State.init World.boot
          (ReadEnv.data (List.replicate 40 65))).1.addr_recv = some t ∧ t.length ≤ 35 ∧
      strcat (RecvResp State.init World.boot (ReadEnv.data (List.replicate 40 65))).1.addr_recv
          (RecvResp State.init World.boot (ReadEnv.data (List.replicate 40 65))).1.cycle_recv =
        some (RecvResp State.init World.boot (ReadEnv.data (List.replicate 40 65))).1.addr_recv ∧
      RecvRespString (RecvResp State.init World.boot (ReadEnv.data (List.replicate 40 65))).1 =
        some ((RecvResp State.init World.boot (ReadEnv.data (List.replicate 40 65))).1, t)) :=
  ⟨Reachable.step (Call.RecvResp (ReadEnv.data (List.replicate 40 65)))
      (Reachable.init World.boot) rfl,
    C10_addr_recv_tail_zero _ _
      (Reachable.step (Call.RecvResp (ReadEnv.data (List.replicate 40 65)))
        (Reachable.init World.boot) rfl)⟩

theorem lookupFd_nat (w : World) (n : Nat) : lookupFd w (n : Int) = w.fdtab.lookup n := by
  have h : ¬ ((n : Int) < 0) := by omega
  simp [lookupFd, h]

theorem lowestFree_cons_ne (tab : List (Nat × FdEntry)) (n : Nat) (e : FdEntry) :
    lowestFree ((n, e) :: tab) ≠ n := by
  intro h
  have hf := lowestFree_free ((n, e) :: tab)
  rw [h] at hf
  simp at hf

/-- C3: when the outbound open succeeds at some attempt (k failures first, and
fuel for the k turns of the loop), Setup returns, and its status is decided by
the inbound open alone: 1 exactly when that open fails, 0 exactly when it
succeeds; that open is issued exactly once in either case; with status 0 both
mfd and cfd are open descriptors (write end of the request path, read end of
the response path); and the status is the same whatever the two mkfifo calls
return. -/
theorem C3_Setup_status (s : State) (w : World) (p q : String) (env : SetupEnv) (fuel k : Nat)
    (hfail : ∀ i < k, env.out i = false) (hok : env.out k = true) (hfuel : k ≤ fuel) :
    ∃ s1 w1 r, Setup s w p q env fuel = some (s1, w1, r) ∧
      (r = 1 ↔ env.inb = false) ∧ (r = 0 ↔ env.inb = true) ∧
      (w1.trace.drop w.trace.length).countP (Event.opensWith O_RDONLY_NONBLOCK) = 1 ∧
      (r = 1 → s1.cfd = -1 ∧ lookupFd w1 s1.cfd = none) ∧
      (r = 0 → lookupFd w1 s1.mfd = some ⟨p, Access.wronly⟩ ∧
        lookupFd w1 s1.cfd = some ⟨q, Access.rdonly⟩) ∧
      (∀ b1 b2 : Bool,
        (Setup s w p q { env with mk1 := b1, mk2 := b2 } fuel).map (fun x => x.2.2) = some r) := by
  have hmk : ∀ b1 b2 : Bool,
      (Setup s w p q { env with mk1 := b1, mk2 := b2 } fuel).map (fun x => x.2.2) =
        some (if env.inb then 0 else 1) := by
    intro b1 b2
    rw [Setup_eq s w p q { env with mk1 := b1, mk2 := b2 } fuel k hfail hok hfuel]
    cases env.inb <;> simp
  have hcnt : ∀ (x : Int) (tl : List Event),
      tl.countP (Event.opensWith O_RDONLY_NONBLOCK) = 0 →
      (List.drop w.trace.length
        (w.trace ++ ([Event.mkfifo p 0o666 (if env.mk1 then 0 else -1),
          Event.mkfifo q 0o666 (if env.mk2 then 0 else -1)] ++
          (List.replicate k (Event.opened p O_WRONLY_NONBLOCK (-1)) ++
            [Event.opened p O_WRONLY_NONBLOCK (lowestFree w.fdtab)])) ++
          (Event.opened q O_RDONLY_NONBLOCK x :: tl))).countP
        (Event.opensWith O_RDONLY_NONBLOCK) = 1 := by
    intro x tl htl
    have hne : O_WRONLY_NONBLOCK ≠ O_RDONLY_NONBLOCK := by decide
    rw [List.append_assoc, List.drop_left]
    simp [List.countP_append, List.countP_cons, List.countP_replicate, Event.opensWith, hne, htl]
  have hS := Setup_eq s w p q env fuel k hfail hok hfuel
  cases hin : env.inb with
  | true =>
    simp only [hin, if_true] at hS
    refine ⟨_, _, 0, hS, by simp, by simp, ?_, by simp, ?_, ?_⟩
    · exact hcnt _ [] rfl
    · intro _
      refine ⟨?_, ?_⟩
      · show lookupFd _ ((lowestFree w.fdtab : Nat) : Int) = _
        rw [lookupFd_nat]
        have hne := lowestFree_cons_ne w.fdtab (lowestFree w.fdtab) ⟨p, Access.wronly⟩
        have hb : (lowestFree w.fdtab ==
            lowestFree ((lowestFree w.fdtab, (⟨p, Access.wronly⟩ : FdEntry)) :: w.fdtab)) = false := by
          simpa using fun h2 => hne h2.symm
        simp [List.lookup_cons, hb]
      · show lookupFd _ ((lowestFree _ : Nat) : Int) = _
        rw [lookupFd_nat]
        simp
    · intro b1 b2
      have h2 := hmk b1 b2
      rw [hin] at h2
      exact h2
  | false =>
    simp only [hin, Bool.false_eq_true, if_false] at hS
    refine ⟨_, _, 1, hS, by simp, by simp, ?_, ?_, by simp, ?_⟩
    · exact hcnt _ [_] rfl
    · intro _
      exact ⟨rfl, rfl⟩
    · intro b1 b2
      have h2 := hmk b1 b2
      rw [hin] at h2
      exact h2

theorem C3_Setup_status_witness :
    (∀ i < 2, (⟨false, true, fun i => decide (2 ≤ i), false⟩ : SetupEnv).out i = false) ∧
    (⟨false, true, fun i => decide (2 ≤ i), false⟩ : SetupEnv).out 2 = true ∧ 2 ≤ 5 ∧
    ∃ s1 w1 r, Setup State.init World.boot "rqst" "resp"
        ⟨false, true, fun i => decide (2 ≤ i), false⟩ 5 = some (s1, w1, r) ∧
      (r = 1 ↔ (⟨false, true, fun i => decide (2 ≤ i), false⟩ : SetupEnv).inb = false) ∧
      (r = 0 ↔ (⟨false, true, fun i => decide (2 ≤ i), false⟩ : SetupEnv).inb = true) ∧
      (w1.trace.drop World.boot.trace.length).countP (Event.opensWith O_RDONLY_NONBLOCK) = 1 ∧
      (r = 1 → s1.cfd = -1 ∧ lookupFd w1 s1.cfd = none) ∧
      (r = 0 → lookupFd w1 s1.mfd = some ⟨"rqst", Access.wronly⟩ ∧
        lookupFd w1 s1.cfd = some ⟨"resp", Access.rdonly⟩) ∧
      (∀ b1 b2 : Bool,
        (Setup State.init World.boot "rqst" "resp"
          { (⟨false, true, fun i => decide (2 ≤ i), false⟩ : SetupEnv) with
            mk1 := b1, mk2 := b2 } 5).map (fun x => x.2.2) = some r) :=
  ⟨by decide, by decide, by decide,
    C3_Setup_status State.init World.boot "rqst" "resp"
      ⟨false, true, fun i => decide (2 ≤ i), false⟩ 5 2 (by decide) (by decide) (by decide)⟩

/-- C8: for every k, when the outbound open fails on its first k attempts and
succeeds on attempt k+1, Setup returns (given fuel for the k turns of the
loop); the calls it issues are the two mkfifo calls, k failed outbound opens,
the successful outbound open, and only then the single inbound open (followed
by the error message when that one fails); so there are exactly k+1 outbound
open attempts, and mfd is the descriptor the successful attempt returned. -/
theorem C8_Setup_retry (s : State) (w : World) (p q : String) (env : SetupEnv) (fuel k : Nat)
    (hfail : ∀ i < k, env.out i = false) (hok : env.out k = true) (hfuel : k ≤ fuel) :
    ∃ s1 w1 r m1 m2 rin tl, Setup s w p q env fuel = some (s1, w1, r) ∧
      w1.trace = w.trace ++ ([Event.mkfifo p 0o666 m1, Event.mkfifo q 0o666 m2] ++
        (List.replicate k (Event.opened p O_WRONLY_NONBLOCK (-1)) ++
          (Event.opened p O_WRONLY_NONBLOCK s1.mfd ::
            Event.opened q O_RDONLY_NONBLOCK rin :: tl))) ∧
      (tl = [] ∨ ∃ text, tl = [Event.printed text]) ∧
      s1.mfd ≠ -1 ∧ s1.cfd = rin ∧
      (w1.trace.drop w.trace.length).countP (Event.opensWith O_WRONLY_NONBLOCK) = k + 1 := by
  have hne : O_RDONLY_NONBLOCK ≠ O_WRONLY_NONBLOCK := by decide
  have hfd : ¬ ((lowestFree w.fdtab : Nat) : Int) = -1 := by omega
  have hS := Setup_eq s w p q env fuel k hfail hok hfuel
  cases hin : env.inb with
  | true =>
    simp only [hin, if_true] at hS
    refine ⟨_, _, 0, (if env.mk1 then 0 else -1), (if env.mk2 then 0 else -1), _, [], hS, ?_,
      Or.inl rfl, hfd, rfl, ?_⟩
    · simp
    · simp only [List.append_assoc, List.drop_left]
      simp [List.countP_append, List.countP_cons, List.countP_replicate, Event.opensWith, hne]
  | false =>
    simp only [hin, Bool.false_eq_true, if_false] at hS
    refine ⟨_, _, 1, (if env.mk1 then 0 else -1), (if env.mk2 then 0 else -1), -1,
      [Event.printed ("Error opening FIFO for tracing at " ++ q ++ "\n")], hS, ?_,
      Or.inr ⟨_, rfl⟩, hfd, rfl, ?_⟩
    · simp
    · simp only [List.append_assoc, List.drop_left]
      simp [List.countP_append, List.countP_cons, List.countP_replicate, Event.opensWith, hne]

theorem C8_Setup_retry_witness :
    (∀ i < 3, (⟨true, true, fun i => decide (3 ≤ i), true⟩ : SetupEnv).out i = false) ∧
    (⟨true, true, fun i => decide (3 ≤ i), true⟩ : SetupEnv).out 3 = true ∧ 3 ≤ 3 ∧
    ∃ s1 w1 r m1 m2 rin tl, Setup State.init World.boot "rqst" "resp"
        ⟨true, true, fun i => decide (3 ≤ i), true⟩ 3 = some (s1, w1, r) ∧
      w1.trace = World.boot.trace ++ ([Event.mkfifo "rqst" 0o666 m1, Event.mkfifo "resp" 0o666 m2] ++
        (List.replicate 3 (Event.opened "rqst" O_WRONLY_NONBLOCK (-1)) ++
          (Event.opened "rqst" O_WRONLY_NONBLOCK s1.mfd ::
            Event.opened "resp" O_RDONLY_NONBLOCK rin :: tl))) ∧
      (tl = [] ∨ ∃ text, tl = [Event.printed text]) ∧
      s1.mfd ≠ -1 ∧ s1.cfd = rin ∧
      (w1.trace.drop World.boot.trace.length).countP (Event.opensWith O_WRONLY_NONBLOCK) = 3 + 1 :=
  ⟨by decide, by decide, by decide,
    C8_Setup_retry State.init World.boot "rqst" "resp"
      ⟨true, true, fun i => decide (3 ≤ i), true⟩ 3 3 (by decide) (by decide) (by decide)⟩

/-- C5: for every record of at least 41 bytes SendRqst returns, leaves the
variables as they were and issues exactly one call, a write on mfd of the
first 41 bytes of the record (41 whatever the record holds); its result is the
result of that write, unchanged: -1, or a count between 0 and 41 (the count
the kernel accepted when that is less than 41); and when the result is 41 the
request channel has grown by exactly these 41 bytes, so a responder that has
consumed the earlier bytes reads the 41 bytes sent and nothing else. -/
theorem C5_SendRqst_write (s : State) (w : World) (str : List Nat) (env : WriteEnv)
    (h : 41 ≤ str.length) :
    ∃ w1 r, SendRqst s w str env = some (s, w1, r) ∧
      w1.trace = w.trace ++ [Event.wrote s.mfd (str.take 41) r] ∧
      (str.take 41).length = 41 ∧
      (w1, r) = sys_write w s.mfd (str.take 41) env ∧
      (r = -1 ∨ (0 ≤ r ∧ r ≤ 41)) ∧
      (∀ e n, lookupFd w s.mfd = some e → e.acc ≠ Access.rdonly → env = WriteEnv.accept n →
        r = min n 41) ∧
      (r = 41 → ∃ e, lookupFd w s.mfd = some e ∧
        pipeGet w1.pipes e.path = pipeGet w.pipes e.path ++ str.take 41 ∧
        pipeTake 41 ((pipeGet w1.pipes e.path).drop (pipeGet w.pipes e.path).length) =
          (str.take 41, [])) := by
  have hl : (str.take 41).length = 41 := by simp [List.length_take, h]
  have hnot : ¬ str.length < 41 := by omega
  refine ⟨(sys_write w s.mfd (str.take 41) env).1, (sys_write w s.mfd (str.take 41) env).2,
    by simp [SendRqst, hnot], sys_write_trace _ _ _ _, hl, rfl, ?_, ?_, ?_⟩
  · have := sys_write_range w s.mfd (str.take 41) env
    rw [hl] at this
    exact this
  · intro e n he hacc henv
    simp only [sys_write, he, henv, hacc, if_false, hl]
  · intro hr
    unfold sys_write at hr ⊢
    cases he : lookupFd w s.mfd with
    | none => simp [he] at hr
    | some e =>
      cases env with
      | err => simp [he] at hr
      | accept n =>
        by_cases hacc : e.acc = Access.rdonly
        · simp [he, hacc] at hr
        · simp only [he, hacc, if_false, hl] at hr ⊢
          have hmin : min n 41 = 41 := by omega
          have htk : (str.take 41).take 41 = str.take 41 := by
            rw [List.take_take]
            rfl
          refine ⟨e, rfl, ?_, ?_⟩
          · simp only [hmin, htk, pipeGet_pipePut]
          · simp only [hmin, htk, pipeGet_pipePut, List.drop_left, pipeTake]
            rw [List.drop_of_length_le (le_of_eq hl)]

theorem C5_SendRqst_write_witness :
    41 ≤ (chars "0000000083000000 READ 100" ++ zeros 19).length ∧
    ∃ w1 r, SendRqst State.init World.boot (chars "0000000083000000 READ 100" ++ zeros 19)
        (WriteEnv.accept 41) = some (State.init, w1, r) ∧
      w1.trace = World.boot.trace ++ [Event.wrote State.init.mfd
        ((chars "0000000083000000 READ 100" ++ zeros 19).take 41) r] ∧
      ((chars "0000000083000000 READ 100" ++ zeros 19).take 41).length = 41 ∧
      (w1, r) = sys_write World.boot State.init.mfd
        ((chars "0000000083000000 READ 100" ++ zeros 19).take 41) (WriteEnv.accept 41) ∧
      (r = -1 ∨ (0 ≤ r ∧ r ≤ 41)) ∧
      (∀ e n, lookupFd World.boot State.init.mfd = some e → e.acc ≠ Access.rdonly →
        WriteEnv.accept 41 = WriteEnv.accept n → r = min n 41) ∧
      (r = 41 → ∃ e, lookupFd World.boot State.init.mfd = some e ∧
        pipeGet w1.pipes e.path = pipeGet World.boot.pipes e.path ++
          (chars "0000000083000000 READ 100" ++ zeros 19).take 41 ∧
        pipeTake 41 ((pipeGet w1.pipes e.path).drop (pipeGet World.boot.pipes e.path).length) =
          ((chars "0000000083000000 READ 100" ++ zeros 19).take 41, [])) :=
  ⟨by decide, C5_SendRqst_write State.init World.boot
    (chars "0000000083000000 READ 100" ++ zeros 19) (WriteEnv.accept 41) (by decide)⟩

theorem lookupFd_congr (w w1 : World) (fd : Int) (h : w1.fdtab = w.fdtab) :
    lookupFd w1 fd = lookupFd w fd := by
  simp [lookupFd, h]

theorem sys_read_range (w : World) (fd : Int) (count : Nat) (env : ReadEnv) :
    ((sys_read w fd count env).2.1 = -1 ∧ (sys_read w fd count env).2.2 = []) ∨
      (sys_read w fd count env).2.1 = ((sys_read w fd count env).2.2.length : Int) := by
  unfold sys_read
  split
  · split
    · exact Or.inl ⟨rfl, rfl⟩
    · exact Or.inr rfl
  · split
    · exact Or.inl ⟨rfl, rfl⟩
    · exact Or.inr rfl
  · exact Or.inl ⟨rfl, rfl⟩

/-- A RecvResp call for which the kernel has no byte: the variables stay as
they are and the result is 0 or -1. -/
theorem RecvResp_noData (s : State) (w : World) (env : ReadEnv) (h : env.noData) :
    ∃ w1 r, RecvResp s w env = (s, w1, r) ∧ (r = 0 ∨ r = -1) ∧
      w1.fdtab = w.fdtab ∧ w1.pipes = w.pipes := by
  have hfr := sys_read_frame w s.cfd 35 env
  have hgot : (sys_read w s.cfd 35 env).2.2 = [] ∧
      ((sys_read w s.cfd 35 env).2.1 = 0 ∨ (sys_read w s.cfd 35 env).2.1 = -1) := by
    unfold sys_read
    cases env with
    | data bs =>
      have hbs : bs = [] := h
      subst hbs
      split
      · split <;> simp_all
      · simp_all
      · simp
    | eof =>
      split
      · simp_all
      · split <;> simp
      · simp
    | err =>
      split <;> simp_all
  refine ⟨(sys_read w s.cfd 35 env).1, (sys_read w s.cfd 35 env).2.1, ?_, hgot.2, hfr.1, hfr.2⟩
  simp only [RecvResp, hgot.1]
  rfl

theorem run_noData (envs : List ReadEnv) :
    ∀ (s : State) (w : World), (∀ e ∈ envs, e.noData) →
      ∃ w2 rs, run s w (envs.map Call.RecvResp) = some (s, w2, rs) ∧
        rs.length = envs.length ∧ (∀ x ∈ rs, x = Ret.int 0 ∨ x = Ret.int (-1)) ∧
        w2.fdtab = w.fdtab ∧ w2.pipes = w.pipes := by
  induction envs with
  | nil =>
    intro s w _
    exact ⟨w, [], rfl, rfl, by simp, rfl, rfl⟩
  | cons e es ih =>
    intro s w h
    obtain ⟨w1, r, h1, hr, hf, hp⟩ := RecvResp_noData s w e (h e (by simp))
    obtain ⟨w2, rs, h2, hlen, hall, hf2, hp2⟩ := ih s w1 (fun x hx => h x (by simp [hx]))
    refine ⟨w2, Ret.int r :: rs, ?_, by simp [hlen], ?_, hf2.trans hf, hp2.trans hp⟩
    · simp only [List.map_cons, run, step, h1, h2]
    · intro x hx
      rcases List.mem_cons.mp hx with rfl | hx
      · rcases hr with rfl | rfl
        · exact Or.inl rfl
        · exact Or.inr rfl
      · exact hall x hx

/-- C6: in every state RecvResp issues exactly one call, a read on cfd with
count 35; the bytes the read delivers, at most 35, are stored from the start
of addr_recv and no other variable changes; the result is the result of the
read, unchanged.  When the kernel has no byte at each of a series of
consecutive RecvResp calls, every one of them returns 0 or -1 and all
variables (addr_recv, cycle_recv, mfd and cfd among them) and the descriptor
table are left as they were. -/
theorem C6_RecvResp_read (s : State) (w : World) (env : ReadEnv) (envs : List ReadEnv)
    (hno : ∀ e ∈ envs, e.noData) :
    (∃ got w1 r, RecvResp s w env = ({ s with addr_recv := got ++ s.addr_recv.drop got.length },
        w1, r) ∧
      (w1, r, got) = sys_read w s.cfd 35 env ∧
      got.length ≤ 35 ∧
      w1.trace = w.trace ++ [Event.readIn s.cfd 35 r] ∧
      ((r = -1 ∧ got = []) ∨ r = (got.length : Int))) ∧
    (∃ w2 rs, run s w (envs.map Call.RecvResp) = some (s, w2, rs) ∧
      rs.length = envs.length ∧ (∀ x ∈ rs, x = Ret.int 0 ∨ x = Ret.int (-1)) ∧
      w2.fdtab = w.fdtab ∧ w2.pipes = w.pipes) := by
  refine ⟨⟨(sys_read w s.cfd 35 env).2.2, (sys_read w s.cfd 35 env).1,
    (sys_read w s.cfd 35 env).2.1, rfl, rfl, sys_read_length _ _ _ _, sys_read_trace _ _ _ _,
    sys_read_range _ _ _ _⟩, run_noData envs s w hno⟩

theorem C6_RecvResp_read_witness :
    (∀ e ∈ [ReadEnv.err, ReadEnv.eof, ReadEnv.data []], e.noData) ∧
    ((∃ got w1 r, RecvResp State.init World.boot (ReadEnv.data (chars "0000000083000000 100")) =
        ({ State.init with addr_recv := got ++ State.init.addr_recv.drop got.length }, w1, r) ∧
      (w1, r, got) = sys_read World.boot State.init.cfd 35
        (ReadEnv.data (chars "0000000083000000 100")) ∧
      got.length ≤ 35 ∧
      w1.trace = World.boot.trace ++ [Event.readIn State.init.cfd 35 r] ∧
      ((r = -1 ∧ got = []) ∨ r = (got.length : Int))) ∧
    (∃ w2 rs, run State.init World.boot
        ([ReadEnv.err, ReadEnv.eof, ReadEnv.data []].map Call.RecvResp) =
        some (State.init, w2, rs) ∧
      rs.length = [ReadEnv.err, ReadEnv.eof, ReadEnv.data []].length ∧
      (∀ x ∈ rs, x = Ret.int 0 ∨ x = Ret.int (-1)) ∧
      w2.fdtab = World.boot.fdtab ∧ w2.pipes = World.boot.pipes)) :=
  ⟨by simp [ReadEnv.noData],
    C6_RecvResp_read State.init World.boot (ReadEnv.data (chars "0000000083000000 100"))
      [ReadEnv.err, ReadEnv.eof, ReadEnv.data []] (by simp [ReadEnv.noData])⟩

/-- With mfd and cfd closed, a SendRqst or RecvResp call returns -1 and moves
no byte: variables, channels and descriptor table stay as they are. -/
theorem closed_step (s : State) (w : World) (c : Call) (hm : lookupFd w s.mfd = none)
    (hc : lookupFd w s.cfd = none) (ht : c.isTransfer) :
    ∃ w1, step s w c = some (s, w1, Ret.int (-1)) ∧ w1.fdtab = w.fdtab ∧ w1.pipes = w.pipes := by
  cases c with
  | SendRqst str env =>
    have hl : ¬ str.length < 41 := by
      have : 41 ≤ str.length := ht
      omega
    refine ⟨{ w with trace := w.trace ++ [Event.wrote s.mfd (str.take 41) (-1)] }, ?_, rfl, rfl⟩
    simp only [step, SendRqst, hl, if_false, sys_write_closed w s.mfd _ env hm, Option.map_some']
  | RecvResp env =>
    refine ⟨{ w with trace := w.trace ++ [Event.readIn s.cfd 35 (-1)] }, ?_, rfl, rfl⟩
    simp only [step, RecvResp, sys_read_closed w s.cfd 35 env hc]
    rfl
  | Setup p q env fuel => exact absurd ht (by simp [Call.isTransfer])
  | RecvRespString => exact absurd ht (by simp [Call.isTransfer])
  | Terminate env => exact absurd ht (by simp [Call.isTransfer])

theorem closed_run (calls : List Call) :
    ∀ (s : State) (w : World), lookupFd w s.mfd = none → lookupFd w s.cfd = none →
      (∀ c ∈ calls, c.isTransfer) →
      ∃ w2, run s w calls = some (s, w2, calls.map fun _ => Ret.int (-1)) ∧
        w2.fdtab = w.fdtab ∧ w2.pipes = w.pipes := by
  induction calls with
  | nil =>
    intro s w _ _ _
    exact ⟨w, rfl, rfl, rfl⟩
  | cons c cs ih =>
    intro s w hm hc h
    obtain ⟨w1, h1, hf, hp⟩ := closed_step s w c hm hc (h c (by simp))
    obtain ⟨w2, h2, hf2, hp2⟩ := ih s w1 (by rw [lookupFd_congr w w1 _ hf]; exact hm)
      (by rw [lookupFd_congr w w1 _ hf]; exact hc) (fun x hx => h x (by simp [hx]))
    refine ⟨w2, ?_, hf2.trans hf, hp2.trans hp⟩
    simp only [run, h1, h2, List.map_cons]

/-- C4: in every state (arrays of their declared size) and for every answer of
the kernel to the termination write, Terminate returns without a status and
leaves both mfd and cfd closed; in the state it leaves, every SendRqst (on a
record of at least 41 bytes) and every RecvResp of any later series of such
calls returns -1, and no byte moves: the variables, the channels and the
descriptor table stay as Terminate left them. -/
theorem C4_Terminate_closes (s : State) (w : World) (env : WriteEnv) (calls : List Call)
    (hwf : s.WF) (hcalls : ∀ c ∈ calls, c.isTransfer) :
    ∃ s1 w1, step s w (Call.Terminate env) = some (s1, w1, Ret.void) ∧
      s1.mfd = s.mfd ∧ s1.cfd = s.cfd ∧
      lookupFd w1 s1.mfd = none ∧ lookupFd w1 s1.cfd = none ∧
      ∃ w2, run s1 w1 calls = some (s1, w2, calls.map fun _ => Ret.int (-1)) ∧
        w2.fdtab = w1.fdtab ∧ w2.pipes = w1.pipes := by
  obtain ⟨s1, w1, hT, h1m, h1c, hm, hc⟩ : ∃ s1 w1, Terminate s w env = some (s1, w1) ∧
      s1.mfd = s.mfd ∧ s1.cfd = s.cfd ∧ lookupFd w1 s.mfd = none ∧ lookupFd w1 s.cfd = none :=
    ⟨_, _, Terminate_eq s w env hwf.2.2.2.1 hwf.2.2.1, rfl, rfl,
      lookupFd_close_none _ _ _ (lookupFd_close_self _ _), lookupFd_close_self _ _⟩
  rw [← h1m] at hm
  rw [← h1c] at hc
  exact ⟨s1, w1, by simp only [step, hT, Option.map_some'], h1m, h1c, hm, hc,
    closed_run calls s1 w1 hm hc hcalls⟩

theorem C4_Terminate_closes_witness :
    State.init.WF ∧
    (∀ c ∈ [Call.SendRqst (chars "0000000083000000 READ 100" ++ zeros 19) (WriteEnv.accept 41),
        Call.RecvResp (ReadEnv.data (chars "0000000083000000 100"))], c.isTransfer) ∧
    ∃ s1 w1, step State.init World.boot (Call.Terminate (WriteEnv.accept 7)) =
        some (s1, w1, Ret.void) ∧
      s1.mfd = State.init.mfd ∧ s1.cfd = State.init.cfd ∧
      lookupFd w1 s1.mfd = none ∧ lookupFd w1 s1.cfd = none ∧
      ∃ w2, run s1 w1
          [Call.SendRqst (chars "0000000083000000 READ 100" ++ zeros 19) (WriteEnv.accept 41),
            Call.RecvResp (ReadEnv.data (chars "0000000083000000 100"))] =
          some (s1, w2,
            [Call.SendRqst (chars "0000000083000000 READ 100" ++ zeros 19) (WriteEnv.accept 41),
              Call.RecvResp (ReadEnv.data (chars "0000000083000000 100"))].map
              fun _ => Ret.int (-1)) ∧
        w2.fdtab = w1.fdtab ∧ w2.pipes = w1.pipes :=
  ⟨by decide, by
      intro c hc
      simp only [List.mem_cons, List.mem_singleton, List.not_mem_nil, or_false] at hc
      rcases hc with rfl | rfl
      · show 41 ≤ _
        decide
      · trivial,
    C4_Terminate_closes State.init World.boot (WriteEnv.accept 7) _ (by decide) (by
      intro c hc
      simp only [List.mem_cons, List.mem_singleton, List.not_mem_nil, or_false] at hc
      rcases hc with rfl | rfl
      · show 41 ≤ _
        decide
      · trivial)⟩

/-- C7 as stated fails: in the initial state, with descriptor 0 open on the
terminal as in any process, SendRqst writes its 41 bytes on descriptor 0 and
returns 41, and RecvResp reads 20 bytes from descriptor 0 into addr_recv and
returns 20; neither is rejected. -/
theorem C7_not_rejected :
    (SendRqst State.init World.boot (chars "0000000083000000 READ 100" ++ zeros 16)
        (WriteEnv.accept 41)).map (fun x => (x.2.2, x.2.1.trace, pipeGet x.2.1.pipes "tty")) =
      some (41, [Event.wrote 0 (chars "0000000083000000 READ 100" ++ zeros 16) 41],
        chars "0000000083000000 READ 100" ++ zeros 16) ∧
    (RecvResp State.init World.boot (ReadEnv.data (chars "0000000083000000 100"))).2.2 = 20 ∧
    (RecvResp State.init World.boot (ReadEnv.data (chars "0000000083000000 100"))).2.1.trace =
      [Event.readIn 0 35 20] ∧
    cstr (RecvResp State.init World.boot
      (ReadEnv.data (chars "0000000083000000 100"))).1.addr_recv =
      some (chars "0000000083000000 100") := by
  refine ⟨?_, ?_, ?_, ?_⟩ <;> decide

/-- C7 amended: in the initial state (mfd = cfd = 0) SendRqst and RecvResp are
not guarded; SendRqst issues its one write of the first 41 bytes of the record
on descriptor 0 and RecvResp its one read with count 35 on descriptor 0, each
returning the result of that call; the result is the error -1 when descriptor
0 is not open. -/
theorem C7_initial_state_passthrough (w : World) (str : List Nat) (wenv : WriteEnv)
    (renv : ReadEnv) (h : 41 ≤ str.length) :
    State.init.mfd = 0 ∧ State.init.cfd = 0 ∧
    SendRqst State.init w str wenv = some (State.init,
      (sys_write w 0 (str.take 41) wenv).1, (sys_write w 0 (str.take 41) wenv).2) ∧
    (sys_write w 0 (str.take 41) wenv).1.trace =
      w.trace ++ [Event.wrote 0 (str.take 41) (sys_write w 0 (str.take 41) wenv).2] ∧
    (RecvResp State.init w renv).2 = ((sys_read w 0 35 renv).1, (sys_read w 0 35 renv).2.1) ∧
    (sys_read w 0 35 renv).1.trace =
      w.trace ++ [Event.readIn 0 35 (sys_read w 0 35 renv).2.1] ∧
    (lookupFd w 0 = none →
      (sys_write w 0 (str.take 41) wenv).2 = -1 ∧ (sys_read w 0 35 renv).2.1 = -1) := by
  have hl : ¬ str.length < 41 := by omega
  refine ⟨rfl, rfl, ?_, sys_write_trace _ _ _ _, rfl, sys_read_trace _ _ _ _, ?_⟩
  · simp only [SendRqst, hl, if_false]
    rfl
  · intro h0
    rw [sys_write_closed w 0 _ wenv h0, sys_read_closed w 0 35 renv h0]
    exact ⟨rfl, rfl⟩

theorem C7_initial_state_passthrough_witness :
    41 ≤ (chars "0000000083000000 READ 100" ++ zeros 16).length ∧
    (State.init.mfd = 0 ∧ State.init.cfd = 0 ∧
    SendRqst State.init World.boot (chars "0000000083000000 READ 100" ++ zeros 16)
      (WriteEnv.accept 41) = some (State.init,
      (sys_write World.boot 0 ((chars "0000000083000000 READ 100" ++ zeros 16).take 41)
        (WriteEnv.accept 41)).1,
      (sys_write World.boot 0 ((chars "0000000083000000 READ 100" ++ zeros 16).take 41)
        (WriteEnv.accept 41)).2) ∧
    (sys_write World.boot 0 ((chars "0000000083000000 READ 100" ++ zeros 16).take 41)
        (WriteEnv.accept 41)).1.trace =
      World.boot.trace ++ [Event.wrote 0 ((chars "0000000083000000 READ 100" ++ zeros 16).take 41)
        (sys_write World.boot 0 ((chars "0000000083000000 READ 100" ++ zeros 16).take 41)
          (WriteEnv.accept 41)).2] ∧
    (RecvResp State.init World.boot ReadEnv.eof).2 =
      ((sys_read World.boot 0 35 ReadEnv.eof).1, (sys_read World.boot 0 35 ReadEnv.eof).2.1) ∧
    (sys_read World.boot 0 35 ReadEnv.eof).1.trace =
      World.boot.trace ++ [Event.readIn 0 35 (sys_read World.boot 0 35 ReadEnv.eof).2.1] ∧
    (lookupFd World.boot 0 = none →
      (sys_write World.boot 0 ((chars "0000000083000000 READ 100" ++ zeros 16).take 41)
        (WriteEnv.accept 41)).2 = -1 ∧ (sys_read World.boot 0 35 ReadEnv.eof).2.1 = -1)) :=
  ⟨by decide, C7_initial_state_passthrough World.boot
    (chars "0000000083000000 READ 100" ++ zeros 16) (WriteEnv.accept 41) ReadEnv.eof (by decide)⟩

theorem strlen_append_nonzero (r rest : List Nat) (hr : ∀ c ∈ r, c ≠ 0) :
    strlen (r ++ rest) = (strlen rest).map (· + r.length) := by
  induction r with
  | nil => cases hs : strlen rest <;> simp [hs]
  | cons c cs ih =>
    have hc : c ≠ 0 := hr c (by simp)
    have ih1 := ih (fun x hx => hr x (by simp [hx]))
    have e1 : strlen (c :: (cs ++ rest)) = (strlen (cs ++ rest)).map (· + 1) := by
      simp [strlen, hc]
    rw [List.cons_append, e1, ih1]
    cases strlen rest <;> simp [Nat.add_assoc]

theorem cstr_append_nonzero (r rest : List Nat) (hr : ∀ c ∈ r, c ≠ 0) :
    cstr (r ++ rest) = (cstr rest).map (r ++ ·) := by
  simp only [cstr, strlen_append_nonzero r rest hr]
  cases strlen rest with
  | none => rfl
  | some m =>
    simp only [Option.map_some', Option.some.injEq]
    rw [Nat.add_comm, List.take_append]

/-- What RecvRespString returns after RecvResp has read a response r without
zero byte of at most 35 bytes in a reachable state: r, followed by the text
that addr_recv already held from index r.length on. -/
theorem RecvRespString_after_RecvResp (s : State) (w : World) (h : Reachable s w)
    (e : FdEntry) (he : lookupFd w s.cfd = some e) (hacc : e.acc ≠ Access.wronly)
    (r : List Nat) (hlen : r.length ≤ 35) (hr : ∀ c ∈ r, c ≠ 0) :
    (RecvResp s w (ReadEnv.data r)).2.2 = r.length ∧
    ∃ old, cstr (s.addr_recv.drop r.length) = some old ∧
      RecvRespString (RecvResp s w (ReadEnv.data r)).1 =
        some ((RecvResp s w (ReadEnv.data r)).1, r ++ old) := by
  have hstep : step s w (Call.RecvResp (ReadEnv.data r)) =
      some ((RecvResp s w (ReadEnv.data r)).1, (RecvResp s w (ReadEnv.data r)).2.1,
        Ret.int (RecvResp s w (ReadEnv.data r)).2.2) := rfl
  have hinv := Inv_step _ _ _ _ _ _ (Inv_of_Reachable s w h) hstep
  obtain ⟨t, ht, hc, _⟩ := RecvRespString_of_Inv _ hinv
  have htake : r.take 35 = r := List.take_of_length_le hlen
  have hread : sys_read w s.cfd 35 (ReadEnv.data r) =
      ({ w with trace := w.trace ++ [Event.readIn s.cfd 35 r.length] }, (r.length : Int), r) := by
    simp only [sys_read, he, hacc, if_false, htake]
  have hbuf : (RecvResp s w (ReadEnv.data r)).1.addr_recv = r ++ s.addr_recv.drop r.length := by
    simp only [RecvResp, hread]
  have hret : (RecvResp s w (ReadEnv.data r)).2.2 = r.length := by
    simp only [RecvResp, hread]
  rw [hbuf, cstr_append_nonzero r _ hr] at hc
  cases hold : cstr (s.addr_recv.drop r.length) with
  | none => simp [hold] at hc
  | some old =>
    simp only [hold, Option.map_some', Option.some.injEq] at hc
    exact ⟨hret, old, rfl, by rw [ht, hc]⟩

/-- A response of exactly 35 bytes comes back as it was read. -/
theorem RecvRespString_full_record (s : State) (w : World) (h : Reachable s w)
    (e : FdEntry) (he : lookupFd w s.cfd = some e) (hacc : e.acc ≠ Access.wronly)
    (r : List Nat) (hlen : r.length = 35) (hr : ∀ c ∈ r, c ≠ 0) :
    RecvRespString (RecvResp s w (ReadEnv.data r)).1 =
      some ((RecvResp s w (ReadEnv.data r)).1, r) := by
  obtain ⟨_, old, hold, hres⟩ :=
    RecvRespString_after_RecvResp s w h e he hacc r (le_of_eq hlen) hr
  have hz : s.addr_recv.drop 35 = zeros 9 := (Inv_of_Reachable s w h).2.2.1
  rw [hlen, hz] at hold
  have : old = [] := by
    have h2 : cstr (zeros 9) = some [] := by decide
    rw [h2] at hold
    exact (Option.some.inj hold).symm
  rw [this, List.append_nil] at hres
  exact hres

/-- C2 on the code: after Setup the peer delivers the 21-byte response
"0000000082000000 1600" and then the 20-byte response "0000000083000000 100";
RecvResp reads each of them whole (results 21 and 20), and RecvRespString then
returns "0000000083000000 1000": the last byte of the earlier response is
still appended, and the cycle reads 1000 instead of 100. -/
theorem C2_leftover_appended :
    (run State.init World.boot
      [Call.Setup "rqst" "resp" ⟨true, true, fun _ => true, true⟩ 0,
       Call.RecvResp (ReadEnv.data (chars "0000000082000000 1600")),
       Call.RecvResp (ReadEnv.data (chars "0000000083000000 100")),
       Call.RecvRespString]).map (fun x => x.2.2) =
      some [Ret.int 0, Ret.int 21, Ret.int 20, Ret.text (chars "0000000083000000 1000")] ∧
    chars "0000000083000000 1000" ≠ chars "0000000083000000 100" := by
  refine ⟨?_, ?_⟩ <;> decide

end Interface
